import Mathlib

/-!
Verification of the rule-resolution core of protoc-gen-redact.

The Go sources embedded here are `fields.go`, `errors.go` and the
file/service/message processors.  Pure helpers that the repository only
declares elsewhere (the default-value table `RedactionDefaults`, the rule
spelling helper `ToCustomRule`) are modelled from the specification, and
each such definition is marked `Modelled from the spec:` in its doc string.

Strings are modelled as Lean `String`s; the string-scanning helper used by
the service processor (`strings.ReplaceAll`) is modelled on `List Char`
with an explicit fuel argument so that every definition is structurally
recursive and kernel-computable.
-/

namespace Redact

/-! ### List scanning machinery (model of Go `strings.ReplaceAll`) -/

/-- `leadsWith pat s` is true when `pat` is an initial segment of `s`. -/
def leadsWith : List Char → List Char → Bool
  | [], _ => true
  | _ :: _, [] => false
  | a :: as, b :: bs => a == b && leadsWith as bs

/-- `hasSub pat s` is true when `pat` occurs as a contiguous run inside `s`. -/
def hasSub (pat : List Char) : List Char → Bool
  | [] => leadsWith pat []
  | c :: rest => leadsWith pat (c :: rest) || hasSub pat rest

/-- Join a list of pieces, separating consecutive pieces by `sep`. -/
def joinWith (sep : List Char) : List (List Char) → List Char
  | [] => []
  | [p] => p
  | p :: q :: ps => p ++ sep ++ joinWith sep (q :: ps)

/-- Worker for `listReplaceAll`: leftmost, non-overlapping replacement of
`pat` by `rep`, scanning at most `fuel` positions.  The fuel is always
instantiated with the length of the scanned list. -/
def replGo (pat rep : List Char) : Nat → List Char → List Char
  | _, [] => []
  | 0, s => s
  | fuel + 1, c :: rest =>
    if leadsWith pat (c :: rest) then
      rep ++ replGo pat rep fuel (List.drop (pat.length - 1) rest)
    else
      c :: replGo pat rep fuel rest

/-- Worker for `listSplitOn`: splits at the leftmost, non-overlapping
occurrences of `pat`. -/
def splitGo (pat : List Char) : Nat → List Char → List (List Char)
  | _, [] => [[]]
  | 0, s => [s]
  | fuel + 1, c :: rest =>
    if leadsWith pat (c :: rest) then
      [] :: splitGo pat fuel (List.drop (pat.length - 1) rest)
    else
      match splitGo pat fuel rest with
      | [] => [[c]]
      | p :: ps => (c :: p) :: ps

/-- Model of Go `strings.Replace(s, pat, rep, -1)` for a nonempty `pat`:
every leftmost, non-overlapping occurrence of `pat` in `s` is replaced by
`rep`, and the replacement text is not rescanned. -/
def listReplaceAll (pat rep s : List Char) : List Char :=
  replGo pat rep s.length s

/-- The pieces of `s` between the leftmost non-overlapping occurrences of
`pat`. -/
def listSplitOn (pat s : List Char) : List (List Char) :=
  splitGo pat s.length s

/-- Model of Go `strings.ReplaceAll(s, old, new)` on `String`, argument
order as in Go. -/
def replaceAllStr (s old new : String) : String :=
  String.mk (listReplaceAll old.toList new.toList s.toList)

/-! ### Schema model (read-only input handed over by protoc-gen-star) -/

/-- `pgs.ProtoType`: the protobuf scalar/aggregate kind of a field. -/
inductive ProtoType where
  | double | float | int64 | uint64 | int32 | fixed64 | fixed32
  | bool | string | group | message | bytes | uint32 | enum
  | sfixed32 | sfixed64 | sint32 | sint64
  deriving DecidableEq

/-- `pgs.ProtoLabel`. -/
inductive ProtoLabel where
  | optional | required | repeated
  deriving DecidableEq

/-- Reference to an embedded message type, with the import-alias-qualified
name already supplied by the (external) alias bookkeeping collaborator. -/
structure EmbedRef where
  name : String
  nameWithAlias : String
  deriving DecidableEq

/-- `pgs.FieldTypeElem`: element type of a repeated or map field;
for maps this is the value type. -/
structure ElementType where
  protoType : ProtoType
  isEmbed : Bool
  embed : Option EmbedRef
  deriving DecidableEq

/-- `pgs.FieldType`.  `protoType` is the descriptor type of the field
(for a map field this is `message`, the synthetic map-entry type);
`embed` is set only for singular message fields; `element` only for
repeated/map fields. -/
structure FieldType where
  protoType : ProtoType
  protoLabel : ProtoLabel
  isMap : Bool
  isRepeated : Bool
  isEmbed : Bool
  embed : Option EmbedRef
  element : Option ElementType
  deriving DecidableEq

/-! ### Redaction annotation model (`redact.FieldRules` and sub-rules) -/

/-- `redact.MessageRules`: the message sub-rule; Go fields `Nil`, `Empty`,
`Skip`. -/
structure MessageRules where
  nilOpt : Bool
  emptyOpt : Bool
  skipOpt : Bool
  deriving DecidableEq

mutual

/-- The `Values` oneof of `redact.FieldRules`.  Scalar branches carry the
payload already rendered the way Go's `fmt.Sprintf("%v", x)` renders it
(the rendering of numeric and boolean literals is external to the core). -/
inductive RuleValues where
  | rfloat (v : String)
  | rdouble (v : String)
  | rint32 (v : String)
  | rint64 (v : String)
  | ruint32 (v : String)
  | ruint64 (v : String)
  | rsint32 (v : String)
  | rsint64 (v : String)
  | rfixed32 (v : String)
  | rfixed64 (v : String)
  | rsfixed32 (v : String)
  | rsfixed64 (v : String)
  | rbool (v : String)
  | rstring (v : String)
  | rbytes (v : String)
  | renum (v : String)
  | rmessage (m : Option MessageRules)
  | relement (e : Option ElementRules)

/-- `redact.ElementRules`: Go fields `Empty`, `Nested`, `Item`
(`Item` is a nullable nested `FieldRules`). -/
inductive ElementRules where
  | mk (emptyOpt : Bool) (nested : Bool) (item : Option FieldRules)

/-- `redact.FieldRules`: `Values` is the (nullable) oneof payload. -/
inductive FieldRules where
  | mk (values : Option RuleValues)

end

/-- Projection for the `Values` field of `redact.FieldRules`. -/
def FieldRules.values : FieldRules → Option RuleValues
  | .mk v => v

/-- Projection for `redact.ElementRules.Empty`. -/
def ElementRules.emptyOpt : ElementRules → Bool
  | .mk e _ _ => e

/-- Projection for `redact.ElementRules.Nested`. -/
def ElementRules.nested : ElementRules → Bool
  | .mk _ n _ => n

/-- Projection for `redact.ElementRules.Item`. -/
def ElementRules.item : ElementRules → Option FieldRules
  | .mk _ _ i => i

/-- One schema field together with its decoded annotations, as handed to
`processFields` by protoc-gen-star.  `name` is the Go name
(`m.ctx.Name(field)`), `protoName` the proto field name, `fqn` the fully
qualified name, `msgFqn` the enclosing message's fully qualified name.
`ctxTypeString`/`ctxKeyTypeString` are the Go type strings supplied by the
external `pgsgo` context (`m.ctx.Type(field).String()` and
`m.ctx.Type(field).Key().String()`).  `redactFlag` is the decoded
`(redact.redact)` bool extension; `rules` is the decoded `FieldRules`
extension (`none` when the extension is absent). -/
structure Field where
  name : String
  protoName : String
  fqn : String
  msgFqn : String
  inOneOf : Bool
  oneOfSynthetic : Bool
  typ : FieldType
  ctxTypeString : String
  ctxKeyTypeString : String
  redactFlag : Bool
  rules : Option FieldRules

/-- One schema message with its decoded message-level extensions
(`redact.ignored`, `redact.nil`, `redact.empty`). -/
structure MessageSrc where
  name : String
  withAlias : String
  fqn : String
  ignored : Bool
  toNil : Bool
  toEmpty : Bool
  fields : List Field

/-- One schema method with its decoded method-level extensions.  `code`
and `errMessage` are `none` when the corresponding extension is absent
(presence matters for inheritance from the service level). -/
structure MethodSrc where
  name : String
  fqn : String
  input : MessageSrc
  output : MessageSrc
  clientStreaming : Bool
  serverStreaming : Bool
  skip : Bool
  internal : Bool
  code : Option Nat
  errMessage : Option String

/-- One schema service with its decoded service-level extensions. -/
structure ServiceSrc where
  name : String
  fqn : String
  skip : Bool
  internal : Bool
  internalCode : Option Nat
  internalErrMessage : Option String
  methods : List MethodSrc

/-! ### Decision records (core output) -/

/-- `FieldData` (redactor.go): resolved per-field decision record. -/
structure FieldData where
  name : String := ""
  redact : Bool := false
  redactionValue : String := ""
  fieldGoType : String := ""
  isMap : Bool := false
  isRepeated : Bool := false
  isMessage : Bool := false
  isOptional : Bool := false
  iterate : Bool := false
  nestedEmbedCall : Bool := false
  embedSkip : Bool := false
  embedMessageName : String := ""
  embedMessageNameWithAlias : String := ""
  deriving DecidableEq, Inhabited

/-- `MessageData`: resolved per-message decision record. -/
structure MessageData where
  name : String := ""
  withAlias : String := ""
  fields : List FieldData := []
  ignore : Bool := false
  toNil : Bool := false
  toEmpty : Bool := false
  deriving DecidableEq, Inhabited

/-- `MethodData`: resolved per-method decision record. -/
structure MethodData where
  name : String := ""
  skip : Bool := false
  input : String := ""
  output : Option MessageData := none
  internal : Bool := false
  statusCode : String := ""
  errMessage : String := ""
  clientStreaming : Bool := false
  serverStreaming : Bool := false
  deriving DecidableEq, Inhabited

/-- `ServiceData`: resolved per-service decision record. -/
structure ServiceData where
  name : String := ""
  skip : Bool := false
  methods : List MethodData := []
  deriving DecidableEq, Inhabited

/-- `RuleInfo` (fields.go): normalized information extracted from a
`FieldRules` value.  The Go zero values `ProtoType(0)`/`ProtoLabel(0)`
are modelled as `none`. -/
structure RuleInfo where
  redactionValue : String := ""
  protoType : Option ProtoType := none
  protoLabel : Option ProtoLabel := none
  deriving DecidableEq

/-! ### Structured errors (errors.go) -/

/-- `ValidationError` (errors.go): validation error with detailed context. -/
structure ValidationError where
  entity : String
  expected : String
  got : String
  hint : String
  deriving DecidableEq

/-- `ValidationError.Error()` (errors.go): rendered message. -/
def ValidationError.render (v : ValidationError) : String :=
  let msg := "Validation failed for " ++ v.entity
  let msg := if v.expected ≠ "" then msg ++ ": expected " ++ v.expected else msg
  let msg := if v.got ≠ "" then msg ++ ", got " ++ v.got else msg
  if v.hint ≠ "" then msg ++ " (hint: " ++ v.hint ++ ")" else msg

/-- `ErrorContext` (errors.go). -/
structure ErrorContext where
  location : String
  field : String
  typ : String
  rule : String
  reason : String
  deriving DecidableEq

/-- `ErrorContext.Error()` (errors.go). -/
def ErrorContext.render (e : ErrorContext) : String :=
  if e.location ≠ "" ∧ e.field ≠ "" then
    "[" ++ e.location ++ "." ++ e.field ++ "] " ++ e.reason
  else if e.location ≠ "" then
    "[" ++ e.location ++ "] " ++ e.reason
  else
    e.reason

/-- A failure recorded through `m.Fail`/`m.Failf`.  In protoc-gen-star
these abort the run, so the embedding propagates the first failure as the
`error` branch of `Except`.  `nilPanic` models a Go nil-pointer
dereference (a crash, not a structured error). -/
inductive Failure where
  | validation (e : ValidationError)
  | failf (msg : String)
  | nilPanic (msg : String)
  deriving DecidableEq

/-- The message carried by a failure (Go `%v` of the error). -/
def Failure.render : Failure → String
  | .validation e => e.render
  | .failf m => m
  | .nilPanic m => m

/-- Whether a resolution step succeeded. -/
def isSuccess {α : Type} : Except Failure α → Bool
  | .ok _ => true
  | .error _ => false

/-- The `Entity` of the `ValidationError` carried by a failed step, if
any. -/
def errorEntity {α : Type} : Except Failure α → Option String
  | .error (.validation e) => some e.entity
  | .error (.failf _) => none
  | .error (.nilPanic _) => none
  | .ok _ => none

/-- The `Hint` of the `ValidationError` carried by a failed step, if
any. -/
def errorHint {α : Type} : Except Failure α → Option String
  | .error (.validation e) => some e.hint
  | .error (.failf _) => none
  | .error (.nilPanic _) => none
  | .ok _ => none

/-! ### Pure lookup tables -/

/-- Modelled from the spec: `RedactionDefaults(kind, isCollection)`
(redactor.go, not under src/; §4.1 of the spec, pinned by
`TestRedactionDefaults` in src/redactor_test.go).  Numeric kinds and enum
default to `"0"`, bool to `"false"`, string to a visible
`"\"REDACTED\""` placeholder, bytes and group to `"nil"`, a singular
message to the sentinel `"-"`; any kind inside a collection defaults to
`"nil"`. -/
def RedactionDefaults (pt : ProtoType) (isCollection : Bool) : String :=
  if isCollection then "nil"
  else
    match pt with
    | .double | .float | .int64 | .uint64 | .int32 | .fixed64 | .fixed32
    | .sfixed32 | .sfixed64 | .sint32 | .sint64 | .uint32 | .enum => "0"
    | .bool => "false"
    | .string => "\"REDACTED\""
    | .bytes => "nil"
    | .group => "nil"
    | .message => "-"

/-- Modelled from the spec: `ToCustomRule(kind, label)` (redactor.go, not
under src/; §4.3a suggestion pattern, pinned by `TestToCustomRule` in
src/redactor_test.go): the correctly-spelled rule form for a field of the
given kind and label. -/
def ToCustomRule (pt : ProtoType) (lab : ProtoLabel) : String :=
  if lab = .repeated then "(redact.custom).element.*"
  else
    match pt with
    | .float => "(redact.custom).float"
    | .double => "(redact.custom).double"
    | .int32 => "(redact.custom).int32"
    | .int64 => "(redact.custom).int64"
    | .uint32 => "(redact.custom).uint32"
    | .uint64 => "(redact.custom).uint64"
    | .sint32 => "(redact.custom).sint32"
    | .sint64 => "(redact.custom).sint64"
    | .fixed32 => "(redact.custom).fixed32"
    | .fixed64 => "(redact.custom).fixed64"
    | .sfixed32 => "(redact.custom).sfixed32"
    | .sfixed64 => "(redact.custom).sfixed64"
    | .bool => "(redact.custom).bool"
    | .string => "(redact.custom).string"
    | .bytes => "(redact.custom).bytes"
    | .enum => "(redact.custom).enum"
    | .message => "(redact.custom).message.*"
    | .group => "(redact.redact)"

/-- `goTypeName` (fields.go): Go type name for a proto type. -/
def goTypeName : ProtoType → String
  | .int32 => "int32"
  | .int64 => "int64"
  | .uint32 => "uint32"
  | .uint64 => "uint64"
  | .sint32 => "int32"
  | .sint64 => "int64"
  | .fixed32 => "uint32"
  | .fixed64 => "uint64"
  | .sfixed32 => "int32"
  | .sfixed64 => "int64"
  | .float => "float32"
  | .double => "float64"
  | .bool => "bool"
  | .string => "string"
  | .bytes => "[]byte"
  | _ => ""

/-- External library: `google.golang.org/grpc/codes.Code.String()`.
Only the canonical codes 0-16 are ever rendered by the validated
processor. -/
def codeString (c : Nat) : String :=
  match c with
  | 0 => "OK"
  | 1 => "Canceled"
  | 2 => "Unknown"
  | 3 => "InvalidArgument"
  | 4 => "DeadlineExceeded"
  | 5 => "NotFound"
  | 6 => "AlreadyExists"
  | 7 => "PermissionDenied"
  | 8 => "ResourceExhausted"
  | 9 => "FailedPrecondition"
  | 10 => "Aborted"
  | 11 => "OutOfRange"
  | 12 => "Unimplemented"
  | 13 => "Internal"
  | 14 => "Unavailable"
  | 15 => "DataLoss"
  | 16 => "Unauthenticated"
  | _ => "Code(" ++ toString c ++ ")"

/-- External library: descriptor-style rendering of a proto type used in
formatted error texts.  No claim depends on these names. -/
def protoTypeName : ProtoType → String
  | .double => "TYPE_DOUBLE"
  | .float => "TYPE_FLOAT"
  | .int64 => "TYPE_INT64"
  | .uint64 => "TYPE_UINT64"
  | .int32 => "TYPE_INT32"
  | .fixed64 => "TYPE_FIXED64"
  | .fixed32 => "TYPE_FIXED32"
  | .bool => "TYPE_BOOL"
  | .string => "TYPE_STRING"
  | .group => "TYPE_GROUP"
  | .message => "TYPE_MESSAGE"
  | .bytes => "TYPE_BYTES"
  | .uint32 => "TYPE_UINT32"
  | .enum => "TYPE_ENUM"
  | .sfixed32 => "TYPE_SFIXED32"
  | .sfixed64 => "TYPE_SFIXED64"
  | .sint32 => "TYPE_SINT32"
  | .sint64 => "TYPE_SINT64"

/-! ### Validation layer (errors.go) -/

/-- `validateMessage` (errors.go): rejects conflicting message-level
options `(redact.ignored)`, `(redact.nil)`, `(redact.empty)` when more
than one of them is set. -/
def validateMessage (msg : MessageSrc) : Except Failure Unit :=
  let conflictCount : Nat :=
    (if msg.ignored then 1 else 0) + (if msg.toNil then 1 else 0) +
      (if msg.toEmpty then 1 else 0)
  if conflictCount > 1 then
    .error (.validation
      { entity := "message " ++ msg.fqn
        expected := "at most one of (redact.ignored), (redact.nil), or (redact.empty)"
        got := "multiple options set (ignored=" ++ toString msg.ignored ++
          ", nil=" ++ toString msg.toNil ++ ", empty=" ++ toString msg.toEmpty ++ ")"
        hint := "these options are mutually exclusive" })
  else
    .ok ()

/-- `validateStatusCode` (errors.go): a gRPC status code is valid exactly
when it does not exceed `codes.Unauthenticated` (16). -/
def validateStatusCode (code : Nat) (location : String) : Except Failure Unit :=
  if code > 16 then
    .error (.validation
      { entity := "status code in " ++ location
        expected := "valid gRPC status code (0-16)"
        got := toString code
        hint := "see https://grpc.io/docs/guides/status-codes/ for valid codes" })
  else
    .ok ()

/-- `validateService` (errors.go): validates the internal service status
code when the `(redact.internal_service_code)` extension is present. -/
def validateService (srv : ServiceSrc) : Except Failure Unit :=
  match srv.internalCode with
  | some c => validateStatusCode c srv.fqn
  | none => .ok ()

/-- `validateMethod` (errors.go): validates the internal method status
code when the `(redact.internal_method_code)` extension is present (the
nil-input/nil-output checks cannot fire in this embedding). -/
def validateMethod (meth : MethodSrc) : Except Failure Unit :=
  match meth.code with
  | some c => validateStatusCode c meth.fqn
  | none => .ok ()

/-- `validateTypeMatch` (errors.go): checks that a rule's type and label
match the annotated field. -/
def validateTypeMatch (field : Field) (ruleType : Option ProtoType)
    (ruleLabel : Option ProtoLabel) : Except Failure Unit :=
  let fieldType := field.typ
  if ruleType.isSome ∧ ruleType ≠ some fieldType.protoType then
    .error (.validation
      { entity := "field " ++ field.fqn
        expected := "rule for type " ++ protoTypeName fieldType.protoType
        got := "rule for type " ++ protoTypeName (ruleType.getD fieldType.protoType)
        hint := "use " ++ ToCustomRule fieldType.protoType fieldType.protoLabel ++
          " instead" })
  else if fieldType.protoLabel = .repeated ∧ ruleLabel ≠ some .repeated then
    .error (.validation
      { entity := "repeated field " ++ field.fqn
        expected := "(redact.custom).element.*"
        got := "non-repeated rule"
        hint := "repeated fields require element rules" })
  else
    .ok ()

/-- `failWithInvalidType` (errors.go): the type-mismatch failure carrying
the correctly spelled rule suggestion. -/
def failWithInvalidTypeErr (field : Field) : Failure :=
  .validation
    { entity := field.fqn
      expected := ToCustomRule field.typ.protoType field.typ.protoLabel
      got := "incompatible redaction rule type"
      hint := "ensure the rule type matches the field type (" ++
        protoTypeName field.typ.protoType ++ ")" }

/-- `failWithNestedError` (errors.go): the failure raised when a nested
`element.item.element` rule reaches `redactedCustomValue`; its message
enumerates the three legal alternatives. -/
def failWithNestedErrorVal (field : Field) : Failure :=
  let e : ErrorContext :=
    { location := field.msgFqn
      field := field.protoName
      typ := protoTypeName field.typ.protoType
      rule := ""
      reason := "nested element.item.element... is not supported - maximum nesting depth is 1" }
  .failf (e.render ++
    "\n\nHint: Use either:\n  - (redact.custom).element.nested for iteration\n  - (redact.custom).element.item.* for custom item values\n  - (redact.custom).element.empty for empty list")

/-- `validateRules` (errors.go): validates a `FieldRules` payload ahead of
field resolution; in particular it rejects an element rule whose item is
itself an element rule. -/
def validateRules (rules : Option FieldRules) (field : Field) : Except Failure Unit :=
  match rules with
  | none => .ok ()
  | some r =>
    match r.values with
    | none =>
      .error (.validation
        { entity := field.fqn
          expected := "redaction rule with values"
          got := "empty rule"
          hint := "define a value for the custom redaction rule" })
    | some v =>
      match v with
      | .rmessage none =>
        .error (.validation
          { entity := field.fqn
            expected := "message rule definition"
            got := "nil message rule"
            hint := "use (redact.custom).message.nil, .empty, or .skip" })
      | .relement none =>
        .error (.validation
          { entity := field.fqn
            expected := "element rule definition"
            got := "nil element rule"
            hint := "use (redact.custom).element.nested, .empty, or .item.*" })
      | .relement (some el) =>
        match el.item with
        | some itemRules =>
          match itemRules.values with
          | some (.relement _) =>
            .error (.validation
              { entity := field.fqn
                expected := "single-level element nesting"
                got := "element.item.element"
                hint := "nested element rules are not supported" })
          | _ => .ok ()
        | none => .ok ()
      | _ => .ok ()

/-! ### Field resolver (fields.go) -/

/-- `RuleInformation` (fields.go): extracts the normalized
`(kind, label, value)` triple from a `FieldRules`.  String payloads are
wrapped in Go raw-string delimiters, bytes payloads in a `[]byte(...)`
conversion; a message/element branch with a nil sub-rule, or an empty
oneof, aborts via `m.Fail`. -/
def RuleInformation (rules : FieldRules) : Except Failure RuleInfo :=
  match rules.values with
  | some (.rfloat v) => .ok { protoType := some .float, redactionValue := v }
  | some (.rdouble v) => .ok { protoType := some .double, redactionValue := v }
  | some (.rint32 v) => .ok { protoType := some .int32, redactionValue := v }
  | some (.rint64 v) => .ok { protoType := some .int64, redactionValue := v }
  | some (.ruint32 v) => .ok { protoType := some .uint32, redactionValue := v }
  | some (.ruint64 v) => .ok { protoType := some .uint64, redactionValue := v }
  | some (.rsint32 v) => .ok { protoType := some .sint32, redactionValue := v }
  | some (.rsint64 v) => .ok { protoType := some .sint64, redactionValue := v }
  | some (.rfixed32 v) => .ok { protoType := some .fixed32, redactionValue := v }
  | some (.rfixed64 v) => .ok { protoType := some .fixed64, redactionValue := v }
  | some (.rsfixed32 v) => .ok { protoType := some .sfixed32, redactionValue := v }
  | some (.rsfixed64 v) => .ok { protoType := some .sfixed64, redactionValue := v }
  | some (.rbool v) => .ok { protoType := some .bool, redactionValue := v }
  | some (.rstring v) =>
    .ok { protoType := some .string, redactionValue := "`" ++ v ++ "`" }
  | some (.rbytes v) =>
    .ok { protoType := some .bytes, redactionValue := "[]byte(`" ++ v ++ "`)" }
  | some (.renum v) => .ok { protoType := some .enum, redactionValue := v }
  | some (.rmessage m) =>
    match m with
    | some _ => .ok { protoType := some .message }
    | none => .error (.failf "(redact.custom).message is nil, no option defined")
  | some (.relement e) =>
    match e with
    | some _ => .ok { protoLabel := some .repeated }
    | none => .error (.failf "(redact.custom).element is nil, no option defined")
  | none => .error (.failf "Something went wrong")

/-- The shared message-sub-rule case analysis of `redactedCustomValue`
(fields.go): the default value is `nil`; `Empty` produces the
empty-instance literal of the embedded type, `Nil` produces `nil`,
`Skip` sets `EmbedSkip`, and with none of the three set the resolver
recurses via `NestedEmbedCall`. -/
def applyMessageRule (flData : FieldData) (rule : MessageRules) : FieldData :=
  let flData := { flData with redactionValue := "nil" }
  if rule.emptyOpt then
    { flData with redactionValue := "&" ++ flData.embedMessageNameWithAlias ++ "\x7b\x7d" }
  else if rule.nilOpt then
    { flData with redactionValue := "nil" }
  else if rule.skipOpt then
    { flData with embedSkip := true }
  else
    { flData with nestedEmbedCall := true }

/-- The `rule.Empty` case of the element branch of `redactedCustomValue`
(fields.go): the empty-collection literal of the field's concrete element
type, distinguishing slice and map by the field's own map-ness. -/
def applyElementEmpty (flData : FieldData) (field : Field) : FieldData :=
  if flData.embedMessageNameWithAlias = "" then
    { flData with redactionValue := field.ctxTypeString ++ "\x7b\x7d" }
  else if flData.isRepeated then
    { flData with redactionValue :=
      "[]*" ++ flData.embedMessageNameWithAlias ++ "\x7b\x7d" }
  else
    -- map type
    { flData with redactionValue :=
      "map[" ++ field.ctxKeyTypeString ++ "]*" ++
        flData.embedMessageNameWithAlias ++ "\x7b\x7d" }

/-- The `rule.Item` case of the element branch of `redactedCustomValue`
(fields.go lines 204-245): an item rule that is itself an element rule
fails with `failWithNestedError`; otherwise the item rule is classified
once and resolved against the element type. -/
def applyItemRule (flData : FieldData) (field : Field)
    (itemRules : FieldRules) : Except Failure FieldData :=
  match itemRules.values with
  | some vals =>
    if (match vals with
        | .relement (some _) => true
        | _ => false) then
      .error (failWithNestedErrorVal field)
    else
      match RuleInformation itemRules with
      | .error e => .error e
      | .ok info2 =>
        match field.typ.element with
        | none => .error (.nilPanic "field type has no element")
        | some ele =>
          -- match types
          if info2.protoType ≠ some ele.protoType then
            .error (failWithInvalidTypeErr field)
          else
            let flData := { flData with
              iterate := true
              redactionValue := "nil" }
            if info2.protoType ≠ some .message then
              -- simple type fields
              .ok { flData with redactionValue := info2.redactionValue }
            else
              -- message type embedded field
              match itemRules.values with
              | some (.rmessage (some rule2)) =>
                .ok (applyMessageRule flData rule2)
              | some (.rmessage none) =>
                .error (.nilPanic "nil message sub-rule")
              | _ =>
                .error (.failf
                  ("Invalid message rule type for field " ++ field.protoName))
  | none => .ok flData

/-- The element branch of `redactedCustomValue` (fields.go lines
175-245). -/
def applyElementRule (flData : FieldData) (field : Field)
    (rule : ElementRules) : Except Failure FieldData :=
  if rule.emptyOpt then
    .ok (applyElementEmpty flData field)
  else if rule.nested then
    -- iterate over all items and redact with defaults
    match field.typ.element with
    | none => .error (.nilPanic "field type has no element")
    | some ele =>
      let flData := { flData with
        iterate := true
        redactionValue := RedactionDefaults ele.protoType false }
      .ok (if ele.isEmbed then { flData with nestedEmbedCall := true } else flData)
  else
    match rule.item with
    | some itemRules => applyItemRule flData field itemRules
    | none => .ok flData

/-- `redactedCustomValue` (fields.go): resolves a custom rule against the
field, assuming `flData` was prefilled with the container default. -/
def redactedCustomValue (flData : FieldData) (field : Field)
    (fieldRules : FieldRules) : Except Failure FieldData :=
  let typ := field.typ
  match RuleInformation fieldRules with
  | .error e => .error e
  | .ok info =>
    -- match field types & rule types with better error message
    if info.protoType.isSome ∧ info.protoType ≠ some typ.protoType then
      match validateTypeMatch field info.protoType info.protoLabel with
      | .error e => .error e
      | .ok _ => .error (failWithInvalidTypeErr field)
    else if typ.protoLabel = .repeated ∧ info.protoLabel ≠ some .repeated then
      match validateTypeMatch field info.protoType info.protoLabel with
      | .error e => .error e
      | .ok _ => .error (failWithInvalidTypeErr field)
    else if info.protoType ≠ some .message ∧ info.protoLabel ≠ some .repeated then
      -- simple type fields
      .ok { flData with redactionValue := info.redactionValue }
    else if info.protoType = some .message then
      match fieldRules.values with
      | some (.rmessage (some rule)) => .ok (applyMessageRule flData rule)
      | some (.rmessage none) => .error (.nilPanic "nil message sub-rule")
      | _ => .error (.failf ("Invalid message rule type for field " ++ field.protoName))
    else
      -- else info.ProtoLabel == pgs.Repeated
      match fieldRules.values with
      | some (.relement (some rule)) => applyElementRule flData field rule
      | some (.relement none) => .error (.nilPanic "nil element sub-rule")
      | _ => .error (.failf ("Invalid element rule type for field " ++ field.protoName))

/-- `processFields` (fields.go): extracts each field's information.
The local `_redact` mirrors fields.go line 55: the read of the
`(redact.redact)` extension at line 56 is commented out in the source, so
the flag stays `false` and only the presence of the `FieldRules`
extension drives redaction. -/
def processFields (field : Field) : Except Failure FieldData :=
  let typ := field.typ
  -- In proto3, fields with explicit `optional` become synthetic oneofs;
  -- bytes fields are []byte, never *[]byte, even with explicit optional.
  let hasExplicitOptional := field.inOneOf && field.oneOfSynthetic
  let isOptional := hasExplicitOptional && decide (typ.protoType ≠ .bytes)
  let em : Option EmbedRef :=
    match typ.embed with
    | some e => some e
    | none =>
      match typ.element with
      | some ele => ele.embed
      | none => none
  let flData : FieldData :=
    { name := field.name
      isMap := typ.isMap
      isRepeated := typ.isRepeated
      isMessage := typ.isEmbed
      isOptional := isOptional
      fieldGoType := goTypeName typ.protoType
      embedMessageName := (em.map EmbedRef.name).getD ""
      embedMessageNameWithAlias := (em.map EmbedRef.nameWithAlias).getD "" }
  let _redact := false
  match field.rules with
  | none => .ok flData -- safe field: no option is defined
  | some fieldRules =>
    match validateRules (some fieldRules) field with
    | .error e => .error e
    | .ok _ =>
      match fieldRules.values with
      | none =>
        -- no field rules
        if !_redact then
          -- and redaction is also denied
          .ok flData
        else
          -- default rules will be used
          let flData := { flData with
            redact := true
            redactionValue := RedactionDefaults typ.protoType
              (typ.isRepeated || typ.isMap) }
          .ok (if typ.isEmbed then { flData with nestedEmbedCall := true } else flData)
      | some _ =>
        -- custom field rules are defined, hence prefill defaults
        let flData := { flData with
          redact := true
          redactionValue := RedactionDefaults typ.protoType
            (typ.isRepeated || typ.isMap) }
        redactedCustomValue flData field fieldRules

/-! ### Message and service resolvers (module.go) -/

/-- Resolve a list of fields in declaration order, aborting at the first
failure (the loop body of `processMessage`). -/
def processFieldList : List Field → Except Failure (List FieldData)
  | [] => .ok []
  | f :: fs =>
    match processFields f with
    | .error e => .error e
    | .ok fd =>
      match processFieldList fs with
      | .error e => .error e
      | .ok fds => .ok (fd :: fds)

/-- `processMessage` (module.go): extracts a message and (when
`wantFields` is set, i.e. for top-level messages) its fields into a
`MessageData`.  An `ignored` message keeps an empty field list and unset
nil/empty flags. -/
def processMessage (msg : MessageSrc) (wantFields : Bool) :
    Except Failure MessageData :=
  match validateMessage msg with
  | .error e => .error e
  | .ok _ =>
    let msgData : MessageData := { name := msg.name, withAlias := msg.withAlias }
    if msg.ignored then
      .ok { msgData with ignore := true }
    else
      let msgData := { msgData with toNil := msg.toNil, toEmpty := msg.toEmpty }
      if wantFields then
        match processFieldList msg.fields with
        | .error e => .error e
        | .ok fds => .ok { msgData with fields := fds }
      else
        .ok msgData

/-- `defaultErrMsg` (module.go): default error-message template for
redacted service methods. -/
def defaultErrMsg : String :=
  "Permission Denied. Method: \"%service%.%method%\" has been redacted"

/-- `specifierMethod` (module.go). -/
def specifierMethod : String := "%method%"

/-- `specifierService` (module.go). -/
def specifierService : String := "%service%"

/-- The format-specifier application of `processService` (module.go):
`strings.ReplaceAll` of `%method%` by the method name, then of
`%service%` by the service name. -/
def applyFormatSpecifiers (methErrMsg methName srvName : String) : String :=
  let methErrMsg := replaceAllStr methErrMsg specifierMethod methName
  replaceAllStr methErrMsg specifierService srvName

/-- The per-method loop body of `processService` (module.go), with the
resolved service-level context passed explicitly: service name, skip and
internal flags, resolved service code and error-message template.  A
skipped method (method-level or service-level skip) is emitted with only
the skip flag set; otherwise the method inherits or overrides the status
code and template, both validated, and the format specifiers are
applied. -/
def processMethod (srvName : String) (srvSkip srvInternal : Bool)
    (srvCode : Nat) (srvErrMsg : String) (meth : MethodSrc) :
    Except Failure MethodData :=
  match validateMethod meth with
  | .error e =>
    .error (.failf ("Cannot process method " ++ meth.fqn ++ ": " ++ e.render))
  | .ok _ =>
    match processMessage meth.output false with
    | .error e => .error e
    | .ok outData =>
      let methData : MethodData :=
        { name := meth.name
          input := meth.input.withAlias
          output := some outData
          clientStreaming := meth.clientStreaming
          serverStreaming := meth.serverStreaming }
      -- check method skip options
      if meth.skip || srvSkip then
        .ok { methData with skip := true }
      else
        let methInternal := meth.internal
        let methCode := meth.code.getD srvCode
        match validateStatusCode methCode meth.fqn with
        | .error e => .error e
        | .ok _ =>
          let methErrMsg := meth.errMessage.getD srvErrMsg
          -- apply format specifiers
          let methErrMsg := applyFormatSpecifiers methErrMsg methData.name srvName
          .ok { methData with
            errMessage := "`" ++ methErrMsg ++ "`"
            statusCode := codeString methCode
            internal := srvInternal || methInternal }

/-- The method loop of `processService`, in declaration order. -/
def processMethodList (srvName : String) (srvSkip srvInternal : Bool)
    (srvCode : Nat) (srvErrMsg : String) :
    List MethodSrc → Except Failure (List MethodData)
  | [] => .ok []
  | m :: ms =>
    match processMethod srvName srvSkip srvInternal srvCode srvErrMsg m with
    | .error e => .error e
    | .ok md =>
      match processMethodList srvName srvSkip srvInternal srvCode srvErrMsg ms with
      | .error e => .error e
      | .ok mds => .ok (md :: mds)

/-- `processService` (module.go): resolves a service and its methods into
a `ServiceData`.  The service-level internal code defaults to
`codes.PermissionDenied` (7) and the error-message template to
`defaultErrMsg` when the corresponding extensions are absent. -/
def processService (srv : ServiceSrc) : Except Failure ServiceData :=
  match validateService srv with
  | .error e => .error (.failf ("Cannot process service: " ++ e.render))
  | .ok _ =>
    let srvSkip := srv.skip
    let srvInternal := srv.internal
    let srvCode := srv.internalCode.getD 7
    match validateStatusCode srvCode srv.fqn with
    | .error e => .error e
    | .ok _ =>
      let srvErrMsg := srv.internalErrMessage.getD defaultErrMsg
      match processMethodList srv.name srvSkip srvInternal srvCode srvErrMsg
          srv.methods with
      | .error e => .error e
      | .ok mds => .ok { name := srv.name, skip := srvSkip, methods := mds }

/-! ### Concrete schema elements used as test vectors -/

/-- A singular string field `password` annotated with only the bare
`(redact.redact) = true` flag and no custom rule (the README's
"default redaction" example). -/
def passwordField : Field :=
  { name := "Password"
    protoName := "password"
    fqn := "user.User.password"
    msgFqn := "user.User"
    inOneOf := false
    oneOfSynthetic := false
    typ :=
      { protoType := .string
        protoLabel := .optional
        isMap := false
        isRepeated := false
        isEmbed := false
        embed := none
        element := none }
    ctxTypeString := "string"
    ctxKeyTypeString := ""
    redactFlag := true
    rules := none }

/-- The field type of a singular embedded message field of type
`Profile`. -/
def profileType : FieldType :=
  { protoType := .message
    protoLabel := .optional
    isMap := false
    isRepeated := false
    isEmbed := true
    embed := some { name := "Profile", nameWithAlias := "pb.Profile" }
    element := none }

/-- A singular embedded message field `profile` carrying a message
sub-rule. -/
def profileField (rule : MessageRules) : Field :=
  { name := "Profile"
    protoName := "profile"
    fqn := "user.User.profile"
    msgFqn := "user.User"
    inOneOf := false
    oneOfSynthetic := false
    typ := profileType
    ctxTypeString := "*pb.Profile"
    ctxKeyTypeString := ""
    redactFlag := false
    rules := some (.mk (some (.rmessage (some rule)))) }

/-- A proto3 `optional Profile opt_profile = 1;` field: an embedded
message inside a synthetic oneof, with no redaction annotation. -/
def optionalProfileField : Field :=
  { name := "OptProfile"
    protoName := "opt_profile"
    fqn := "user.User.opt_profile"
    msgFqn := "user.User"
    inOneOf := true
    oneOfSynthetic := true
    typ := profileType
    ctxTypeString := "*pb.Profile"
    ctxKeyTypeString := ""
    redactFlag := false
    rules := none }

/-- A repeated int32 field `scores` annotated with an
`element.item.element` rule (illegal nesting). -/
def scoresField : Field :=
  { name := "Scores"
    protoName := "scores"
    fqn := "user.User.scores"
    msgFqn := "user.User"
    inOneOf := false
    oneOfSynthetic := false
    typ :=
      { protoType := .int32
        protoLabel := .repeated
        isMap := false
        isRepeated := true
        isEmbed := false
        embed := none
        element := some { protoType := .int32, isEmbed := false, embed := none } }
    ctxTypeString := "[]int32"
    ctxKeyTypeString := ""
    redactFlag := false
    rules := some (.mk (some (.relement (some (.mk false false
      (some (.mk (some (.relement (some (.mk false true none)))))))))))  }

/-- A plain output message with no options and no fields. -/
def emptyOutputMsg : MessageSrc :=
  { name := "User"
    withAlias := "pb.User"
    fqn := "user.User"
    ignored := false
    toNil := false
    toEmpty := false
    fields := [] }

/-- A concrete method `GetUser` with no method-level options. -/
def getUserMethod : MethodSrc :=
  { name := "GetUser"
    fqn := "user.Chat.GetUser"
    input := emptyOutputMsg
    output := emptyOutputMsg
    clientStreaming := false
    serverStreaming := false
    skip := false
    internal := false
    code := none
    errMessage := none }

/-- A concrete method `GetUserInternal` carrying a method-level skip and
a method-level status code. -/
def skippedMethod : MethodSrc :=
  { name := "GetUserInternal"
    fqn := "user.Chat.GetUserInternal"
    input := emptyOutputMsg
    output := emptyOutputMsg
    clientStreaming := false
    serverStreaming := false
    skip := true
    internal := false
    code := none
    errMessage := none }

/-- A concrete service `Chat` with a service-level skip and two
methods. -/
def skippedService : ServiceSrc :=
  { name := "Chat"
    fqn := "user.Chat"
    skip := true
    internal := false
    internalCode := none
    internalErrMessage := none
    methods := [getUserMethod, skippedMethod] }

/-- A concrete service `Chat` without a service-level skip, carrying a
service-level code and one skipped plus one internal method. -/
def mixedService : ServiceSrc :=
  { name := "Chat"
    fqn := "user.Chat"
    skip := false
    internal := true
    internalCode := some 16
    internalErrMessage := none
    methods := [skippedMethod, getUserMethod] }

/-- The payload of a successful resolution step (`default` on failure). -/
def resultData {α : Type} [Inhabited α] : Except Failure α → α
  | .ok a => a
  | .error _ => default

/-- The resolved message record for `emptyOutputMsg`. -/
def userMsgData : MessageData := { name := "User", withAlias := "pb.User" }

/-- The decision emitted for `getUserMethod` under a skipping service. -/
def skippedGetUserData : MethodData :=
  { name := "GetUser", skip := true, input := "pb.User", output := some userMsgData }

/-- The decision emitted for `skippedMethod`. -/
def skippedInternalData : MethodData :=
  { name := "GetUserInternal", skip := true, input := "pb.User"
    output := some userMsgData }

/-- The decision emitted for `skippedService`. -/
def skippedServiceData : ServiceData :=
  { name := "Chat", skip := true
    methods := [skippedGetUserData, skippedInternalData] }

/-- The decision emitted for `getUserMethod` under `mixedService`. -/
def getUserMethodData : MethodData :=
  { name := "GetUser", input := "pb.User", output := some userMsgData
    internal := true, statusCode := "Unauthenticated"
    errMessage := "`Permission Denied. Method: \"Chat.GetUser\" has been redacted`" }

/-- The decision emitted for `mixedService`. -/
def mixedServiceData : ServiceData :=
  { name := "Chat", skip := false
    methods := [skippedInternalData, getUserMethodData] }

/-- The decision emitted for `optionalProfileField`. -/
def optProfileData : FieldData :=
  { name := "OptProfile", isMessage := true, isOptional := true
    embedMessageName := "Profile", embedMessageNameWithAlias := "pb.Profile" }

/-- The failure actually raised for an `element.item.element` rule on
`scoresField`: the single-level-nesting validation error of
`validateRules`. -/
def nestingError : Failure :=
  .validation
    { entity := "user.User.scores"
      expected := "single-level element nesting"
      got := "element.item.element"
      hint := "nested element rules are not supported" }

/-! ### Theorems -/

/-- C1: For every protobuf scalar/enum kind and collection flag, the
default-value table `RedactionDefaults(kind, isCollection)` returns `"0"`
for every singular numeric kind
(int32/int64/uint32/uint64/sint32/sint64/fixed32/fixed64/sfixed32/sfixed64/float/double/enum),
`"false"` for singular bool, `"\"REDACTED\""` for singular string,
`"nil"` for bytes regardless of the collection flag, `"-"` for a singular
message kind, and `"nil"` for every kind whenever `isCollection` is
true. -/
theorem claim_C1_redactionDefaults :
    (∀ k, RedactionDefaults k true = "nil")
    ∧ RedactionDefaults .int32 false = "0"
    ∧ RedactionDefaults .int64 false = "0"
    ∧ RedactionDefaults .uint32 false = "0"
    ∧ RedactionDefaults .uint64 false = "0"
    ∧ RedactionDefaults .sint32 false = "0"
    ∧ RedactionDefaults .sint64 false = "0"
    ∧ RedactionDefaults .fixed32 false = "0"
    ∧ RedactionDefaults .fixed64 false = "0"
    ∧ RedactionDefaults .sfixed32 false = "0"
    ∧ RedactionDefaults .sfixed64 false = "0"
    ∧ RedactionDefaults .float false = "0"
    ∧ RedactionDefaults .double false = "0"
    ∧ RedactionDefaults .enum false = "0"
    ∧ RedactionDefaults .bool false = "false"
    ∧ RedactionDefaults .string false = "\"REDACTED\""
    ∧ RedactionDefaults .bytes false = "nil"
    ∧ RedactionDefaults .bytes true = "nil"
    ∧ RedactionDefaults .message false = "-" := by
  refine ⟨fun k => ?_, rfl, rfl, rfl, rfl, rfl, rfl, rfl, rfl, rfl, rfl, rfl,
    rfl, rfl, rfl, rfl, rfl, rfl, rfl⟩
  cases k <;> rfl

/-- C4: For all eight combinations of the message-level options
{ignore, forceNil, forceEmpty}, `validateMessage` fails with the
conflicting-options validation error exactly when more than one of the
three is true, and succeeds when zero or one is true. -/
theorem claim_C4_conflictingMessageOptions (name wa fqn : String)
    (a b c : Bool) (fs : List Field) :
    isSuccess (validateMessage ⟨name, wa, fqn, a, b, c, fs⟩)
      = !((a && b) || (a && c) || (b && c))
    ∧ errorHint (validateMessage ⟨name, wa, fqn, a, b, c, fs⟩)
      = (if (a && b) || (a && c) || (b && c) then
          some "these options are mutually exclusive" else none) := by
  cases a <;> cases b <;> cases c <;>
    simp [validateMessage, isSuccess, errorHint]

/-- C7: the claim says a field with only the bare `(redact.redact)` flag
resolves with `redact = true` and the kind's default value; the code never
reads the flag (the extension read at fields.go:56 is commented out), so
`passwordField` — a singular string field with only the bare flag —
resolves with `redact = false` and no redaction value, contradicting the
claim and the repository README's "default redaction" example. -/
theorem claim_C7_bareFlag_ignored :
    passwordField.redactFlag = true
    ∧ passwordField.rules = none
    ∧ processFields passwordField = .ok { name := "Password", fieldGoType := "string" }
    ∧ (resultData (processFields passwordField)).redact = false
    ∧ (resultData (processFields passwordField)).redactionValue ≠ "\"REDACTED\"" :=
  ⟨rfl, rfl, rfl, rfl, by decide⟩

/-- C9 counterexample: a proto3 `optional` embedded-message field (a
synthetic-oneof member of message kind) resolves with `isOptional = true`
even though its kind is message, not a scalar/enum — so `isOptional` is
not true "only for a singular, explicitly-nilable scalar/enum". -/
theorem claim_C9_counterexample :
    processFields optionalProfileField = .ok optProfileData
    ∧ optProfileData.isOptional = true
    ∧ optProfileData.isMessage = true := ⟨rfl, rfl, rfl⟩

/-- C3 counterexample: on `scoresField` (repeated int32 with an
`element.item.element` rule) resolution fails with the single-level
nesting validation error raised by `validateRules`, whose rendered
message does not mention any of the three legal alternatives
(`element.nested`, `element.item.*`, `element.empty`) — the enumerating
message of `failWithNestedError` is pre-empted. -/
theorem claim_C3_counterexample :
    processFields scoresField = .error nestingError
    ∧ hasSub "element.nested".toList nestingError.render.toList = false
    ∧ hasSub "element.empty".toList nestingError.render.toList = false
    ∧ hasSub "element.item.*".toList nestingError.render.toList = false :=
  ⟨rfl, by decide, by decide, by decide⟩

/-- C3 (amended): for every field whose element rule's item rule is
itself an element rule, resolution fails regardless of what the innermost
element rule contains; the failure is the single-level-nesting validation
error raised by `validateRules` (whose hint reads "nested element rules
are not supported"), not the later message of `failWithNestedError` that
enumerates the three legal alternatives. -/
theorem claim_C3_nestedDepth (field : Field) (e1 n1 : Bool)
    (inner : Option ElementRules)
    (hr : field.rules = some (.mk (some (.relement (some (.mk e1 n1
      (some (.mk (some (.relement inner)))))))))) :
    processFields field = .error (.validation
      { entity := field.fqn
        expected := "single-level element nesting"
        got := "element.item.element"
        hint := "nested element rules are not supported" }) := by
  simp only [processFields, hr, validateRules, FieldRules.values, ElementRules.item]

/-- Witness for C3 (amended) at the concrete `scoresField`. -/
theorem claim_C3_nestedDepth_witness :
    processFields scoresField = .error nestingError :=
  claim_C3_nestedDepth scoresField false false (some (.mk false true none)) rfl

/-- C2: for every message-typed singular field carrying a message
sub-rule, the field resolver produces: `empty` set (alone) → the
redaction value is the empty-instance literal of the embedded type
(`&<alias>{}`); `nil` set (alone) → value `nil`; `skip` set (alone) →
`embedSkip = true` with no recursion and the value left at the message
branch's default `nil`; none of the three set → `nestedEmbedCall = true`
with the value left at that same default `nil`. -/
theorem claim_C2_messageSubRule (field : Field) (rule : MessageRules)
    (hk : field.typ.protoType = .message)
    (hl : field.typ.protoLabel ≠ .repeated)
    (hr : field.rules = some (.mk (some (.rmessage (some rule))))) :
    isSuccess (processFields field) = true
    ∧ (rule.emptyOpt = true → rule.nilOpt = false → rule.skipOpt = false →
        (resultData (processFields field)).redactionValue =
          "&" ++ (resultData (processFields field)).embedMessageNameWithAlias ++ "\x7b\x7d"
        ∧ (resultData (processFields field)).embedSkip = false
        ∧ (resultData (processFields field)).nestedEmbedCall = false)
    ∧ (rule.nilOpt = true → rule.emptyOpt = false → rule.skipOpt = false →
        (resultData (processFields field)).redactionValue = "nil"
        ∧ (resultData (processFields field)).embedSkip = false
        ∧ (resultData (processFields field)).nestedEmbedCall = false)
    ∧ (rule.skipOpt = true → rule.emptyOpt = false → rule.nilOpt = false →
        (resultData (processFields field)).embedSkip = true
        ∧ (resultData (processFields field)).nestedEmbedCall = false
        ∧ (resultData (processFields field)).redactionValue = "nil")
    ∧ (rule.emptyOpt = false → rule.nilOpt = false → rule.skipOpt = false →
        (resultData (processFields field)).nestedEmbedCall = true
        ∧ (resultData (processFields field)).embedSkip = false
        ∧ (resultData (processFields field)).redactionValue = "nil") := by
  obtain ⟨n, e, sk⟩ := rule
  cases n <;> cases e <;> cases sk <;>
    simp [processFields, hr, validateRules, FieldRules.values, redactedCustomValue,
      RuleInformation, hk, hl, applyMessageRule, isSuccess, resultData,
      MessageRules.emptyOpt, MessageRules.nilOpt, MessageRules.skipOpt]

/-- Witness for C2 at the concrete `skip` sub-rule on `profileField`. -/
theorem claim_C2_messageSubRule_witness :
    (resultData (processFields (profileField ⟨false, false, true⟩))).embedSkip = true
    ∧ (resultData (processFields (profileField ⟨false, false, true⟩))).nestedEmbedCall = false
    ∧ (resultData (processFields (profileField ⟨false, false, true⟩))).redactionValue = "nil" :=
  (claim_C2_messageSubRule (profileField ⟨false, false, true⟩) ⟨false, false, true⟩
    rfl (by decide) rfl).2.2.2.1 rfl rfl rfl

/-- The message sub-rule case analysis only touches the redaction value
and the embed flags. -/
theorem applyMessageRule_facts (flData : FieldData) (rule : MessageRules) :
    (applyMessageRule flData rule).isOptional = flData.isOptional
    ∧ (applyMessageRule flData rule).isRepeated = flData.isRepeated
    ∧ (applyMessageRule flData rule).isMessage = flData.isMessage := by
  unfold applyMessageRule
  split_ifs <;> simp

/-- The empty-collection literal case only touches the redaction value. -/
theorem applyElementEmpty_facts (flData : FieldData) (field : Field) :
    (applyElementEmpty flData field).isOptional = flData.isOptional
    ∧ (applyElementEmpty flData field).isRepeated = flData.isRepeated
    ∧ (applyElementEmpty flData field).isMessage = flData.isMessage := by
  unfold applyElementEmpty
  split_ifs <;> simp

/-- The item-rule case analysis never changes the representation facts of
the prefilled decision. -/
theorem applyItemRule_facts (flData : FieldData) (field : Field)
    (itemRules : FieldRules) (fd : FieldData)
    (h : applyItemRule flData field itemRules = .ok fd) :
    fd.isOptional = flData.isOptional ∧ fd.isRepeated = flData.isRepeated
    ∧ fd.isMessage = flData.isMessage := by
  simp only [applyItemRule] at h
  repeat'
    first
      | exact Except.noConfusion h
      | (injection h with h; subst h;
          first
          | exact applyMessageRule_facts _ _
          | simp)
      | split at h

/-- The element-rule case analysis never changes the representation facts
of the prefilled decision. -/
theorem applyElementRule_facts (flData : FieldData) (field : Field)
    (rule : ElementRules) (fd : FieldData)
    (h : applyElementRule flData field rule = .ok fd) :
    fd.isOptional = flData.isOptional ∧ fd.isRepeated = flData.isRepeated
    ∧ fd.isMessage = flData.isMessage := by
  simp only [applyElementRule] at h
  repeat'
    first
      | exact Except.noConfusion h
      | exact applyItemRule_facts _ _ _ _ h
      | (injection h with h; subst h;
          first
          | exact applyElementEmpty_facts _ _
          | simp
          | (split <;> simp))
      | split at h

/-- `redactedCustomValue` never changes the representation facts of the
prefilled decision. -/
theorem redactedCustomValue_facts (flData : FieldData) (field : Field)
    (fieldRules : FieldRules) (fd : FieldData)
    (h : redactedCustomValue flData field fieldRules = .ok fd) :
    fd.isOptional = flData.isOptional ∧ fd.isRepeated = flData.isRepeated
    ∧ fd.isMessage = flData.isMessage := by
  simp only [redactedCustomValue] at h
  repeat'
    first
      | exact Except.noConfusion h
      | exact applyElementRule_facts _ _ _ _ h
      | (injection h with h; subst h;
          first
          | exact applyMessageRule_facts _ _
          | simp)
      | split at h

/-- The representation facts of a resolved field decision are computed
from the field alone, before any rule handling. -/
theorem processFields_facts (field : Field) (fd : FieldData)
    (h : processFields field = .ok fd) :
    fd.isOptional = (field.inOneOf && field.oneOfSynthetic
        && decide (field.typ.protoType ≠ ProtoType.bytes))
    ∧ fd.isRepeated = field.typ.isRepeated
    ∧ fd.isMessage = field.typ.isEmbed := by
  simp only [processFields] at h
  repeat'
    first
      | exact Except.noConfusion h
      | (injection h with h; subst h; simp)
      | split at h
      | (obtain ⟨h1, h2, h3⟩ := redactedCustomValue_facts _ _ _ _ h; simp_all)

/-- C9 (amended): `isOptional` is true exactly when the field carries the
explicit proto3 `optional` marker (a synthetic oneof) and its kind is not
bytes — including embedded-message fields, not only scalars/enums; it is
never true for a bytes field, and never true simultaneously with
`isRepeated` given the schema invariant that synthetic-oneof (proto3
optional) fields are singular. -/
theorem claim_C9_isOptional (field : Field) (fd : FieldData)
    (hwf : field.oneOfSynthetic = true → field.typ.isRepeated = false)
    (h : processFields field = .ok fd) :
    fd.isOptional = (field.inOneOf && field.oneOfSynthetic
        && decide (field.typ.protoType ≠ ProtoType.bytes))
    ∧ (field.typ.protoType = .bytes → fd.isOptional = false)
    ∧ (fd.isOptional = true → fd.isRepeated = false) := by
  obtain ⟨h1, h2, h3⟩ := processFields_facts field fd h
  refine ⟨h1, fun hb => ?_, fun ho => ?_⟩
  · rw [h1, hb]; simp
  · rw [h1] at ho
    simp only [Bool.and_eq_true] at ho
    rw [h2]
    exact hwf ho.1.2

/-- Witness for C9 (amended) at the concrete proto3-optional message
field. -/
theorem claim_C9_isOptional_witness :
    optProfileData.isOptional = (optionalProfileField.inOneOf
        && optionalProfileField.oneOfSynthetic
        && decide (optionalProfileField.typ.protoType ≠ ProtoType.bytes))
    ∧ (optionalProfileField.typ.protoType = .bytes →
        optProfileData.isOptional = false)
    ∧ (optProfileData.isOptional = true → optProfileData.isRepeated = false) :=
  claim_C9_isOptional optionalProfileField optProfileData (fun _ => rfl) rfl

/-- A status-code validation succeeds exactly when the code is at most
16. -/
theorem validateStatusCode_ok_iff (code : Nat) (loc : String) :
    validateStatusCode code loc = .ok () ↔ code ≤ 16 := by
  unfold validateStatusCode
  split <;> simp_all

/-- C5: validation of a status code succeeds exactly when the code lies
in `[0, 16]` (codes 0 and 16 succeed, 17 and above fail), the failure
names the offending location; the same `validateStatusCode` is applied at
service and method level, a non-skipped method resolves its code as the
method-level override of the service-level inherited code, and a service
that resolves successfully has a valid service-level code. -/
theorem claim_C5_statusCode (code : Nat) (loc sn se : String) (si : Bool)
    (sc : Nat) (m : MethodSrc) (md : MethodData) (srv : ServiceSrc)
    (sd : ServiceData) :
    isSuccess (validateStatusCode code loc) = decide (code ≤ 16)
    ∧ (16 < code → validateStatusCode code loc = .error (.validation
        { entity := "status code in " ++ loc
          expected := "valid gRPC status code (0-16)"
          got := toString code
          hint := "see https://grpc.io/docs/guides/status-codes/ for valid codes" }))
    ∧ (m.skip = false → processMethod sn false si sc se m = .ok md →
        md.statusCode = codeString (m.code.getD sc) ∧ m.code.getD sc ≤ 16)
    ∧ (processService srv = .ok sd → srv.internalCode.getD 7 ≤ 16) := by
  refine ⟨?_, ?_, ?_, ?_⟩
  · by_cases hc : code ≤ 16
    · rw [(validateStatusCode_ok_iff code loc).mpr hc]
      simp [isSuccess, hc]
    · unfold validateStatusCode
      rw [if_pos (by omega)]
      simp [isSuccess, hc]
  · intro hc
    unfold validateStatusCode
    rw [if_pos hc]
  · intro hskip hok
    simp only [processMethod, hskip, Bool.false_or] at hok
    split at hok
    · exact Except.noConfusion hok
    · split at hok
      · exact Except.noConfusion hok
      · rw [if_neg (by simp)] at hok
        split at hok
        · exact Except.noConfusion hok
        · rename_i u heq
          injection hok with hok
          subst hok
          refine ⟨rfl, ?_⟩
          exact (validateStatusCode_ok_iff _ _).mp (by cases u; exact heq)
  · intro hok
    simp only [processService] at hok
    cases hcode : srv.internalCode with
    | none => rw [Option.getD_none]; omega
    | some c =>
      rw [Option.getD_some]
      simp only [validateService, hcode] at hok
      split at hok
      · exact Except.noConfusion hok
      · rename_i u heq
        exact (validateStatusCode_ok_iff _ _).mp (by cases u; exact heq)

/-- Witness for C5 at code 17, location `user.Chat` and the concrete
non-skipped method of `mixedService` (service code 16 inherited). -/
theorem claim_C5_statusCode_witness :
    isSuccess (validateStatusCode 17 "user.Chat") = decide ((17 : Nat) ≤ 16)
    ∧ validateStatusCode 17 "user.Chat" = .error (.validation
        { entity := "status code in " ++ "user.Chat"
          expected := "valid gRPC status code (0-16)"
          got := toString (17 : Nat)
          hint := "see https://grpc.io/docs/guides/status-codes/ for valid codes" })
    ∧ (getUserMethodData.statusCode = codeString (getUserMethod.code.getD 16)
        ∧ getUserMethod.code.getD 16 ≤ 16)
    ∧ mixedService.internalCode.getD 7 ≤ 16 := by
  have h := claim_C5_statusCode 17 "user.Chat" "Chat" defaultErrMsg true 16
    getUserMethod getUserMethodData mixedService mixedServiceData
  exact ⟨h.1, h.2.1 (by omega), h.2.2.1 rfl rfl, h.2.2.2 rfl⟩

/-- Index-wise characterization of a successful method loop. -/
theorem processMethodList_ok (sn : String) (sk si : Bool) (sc : Nat)
    (se : String) (ms : List MethodSrc) (mds : List MethodData)
    (h : processMethodList sn sk si sc se ms = .ok mds) :
    mds.length = ms.length
    ∧ ∀ (i : Nat) (m : MethodSrc) (md : MethodData),
        ms[i]? = some m → mds[i]? = some md →
        processMethod sn sk si sc se m = .ok md := by
  induction ms generalizing mds with
  | nil =>
    simp only [processMethodList] at h
    injection h with h
    subst h
    simp
  | cons m ms ih =>
    simp only [processMethodList] at h
    split at h
    · exact Except.noConfusion h
    · rename_i md1 heq1
      split at h
      · exact Except.noConfusion h
      · rename_i mds1 heq2
        injection h with h
        subst h
        obtain ⟨hlen, hidx⟩ := ih _ heq2
        refine ⟨by simp [hlen], ?_⟩
        intro i mm mmd h1 h2
        cases i with
        | zero =>
          simp only [List.getElem?_cons_zero, Option.some_inj] at h1 h2
          subst h1
          subst h2
          exact heq1
        | succ j =>
          simp only [List.getElem?_cons_succ] at h1 h2
          exact hidx j mm mmd h1 h2

/-- What a successful `processService` run guarantees: the skip flag is
the service-level skip, and the emitted method decisions correspond
one-to-one, in order, to the schema methods. -/
theorem processService_ok (srv : ServiceSrc) (sd : ServiceData)
    (h : processService srv = .ok sd) :
    sd.skip = srv.skip
    ∧ sd.methods.length = srv.methods.length
    ∧ ∀ (i : Nat) (m : MethodSrc) (md : MethodData),
        srv.methods[i]? = some m → sd.methods[i]? = some md →
        processMethod srv.name srv.skip srv.internal (srv.internalCode.getD 7)
          (srv.internalErrMessage.getD defaultErrMsg) m = .ok md := by
  simp only [processService] at h
  split at h
  · exact Except.noConfusion h
  · split at h
    · exact Except.noConfusion h
    · split at h
      · exact Except.noConfusion h
      · rename_i mds heq
        injection h with h
        subst h
        obtain ⟨hlen, hidx⟩ := processMethodList_ok _ _ _ _ _ _ _ heq
        exact ⟨rfl, hlen, hidx⟩

/-- A method processed under an active skip gate (method-level or
service-level) is emitted with only the skip flag set: the internal flag
stays false and the status-code and error-message fields stay empty. -/
theorem processMethod_skipped (sn : String) (sk si : Bool) (sc : Nat)
    (se : String) (m : MethodSrc) (md : MethodData)
    (hs : (m.skip || sk) = true)
    (h : processMethod sn sk si sc se m = .ok md) :
    md.skip = true ∧ md.internal = false ∧ md.statusCode = ""
    ∧ md.errMessage = "" := by
  simp only [processMethod] at h
  split at h
  · exact Except.noConfusion h
  · split at h
    · exact Except.noConfusion h
    · rw [if_pos hs] at h
      injection h with h
      subst h
      exact ⟨rfl, rfl, rfl, rfl⟩

/-- C8: when a service carries the service-level skip option, every
emitted method decision has `skip = true`, and the service decision still
contains one method decision per schema method (methods are built, not
dropped). -/
theorem claim_C8_serviceSkip (srv : ServiceSrc) (sd : ServiceData)
    (hskip : srv.skip = true) (hok : processService srv = .ok sd) :
    sd.methods.length = srv.methods.length
    ∧ ∀ md ∈ sd.methods, md.skip = true := by
  obtain ⟨hsk, hlen, hidx⟩ := processService_ok srv sd hok
  refine ⟨hlen, fun md hmd => ?_⟩
  obtain ⟨i, hi⟩ := List.mem_iff_getElem?.mp hmd
  have hlt : i < sd.methods.length := by
    rcases List.getElem?_eq_some.mp hi with ⟨hl, _⟩
    exact hl
  have hlt2 : i < srv.methods.length := hlen ▸ hlt
  have hm : srv.methods[i]? = some srv.methods[i] := List.getElem?_eq_getElem hlt2
  have hpm := hidx i _ md hm hi
  have hs : (srv.methods[i].skip || srv.skip) = true := by simp [hskip]
  exact (processMethod_skipped _ _ _ _ _ _ _ hs hpm).1

/-- Witness for C8 at the concrete `skippedService`. -/
theorem claim_C8_serviceSkip_witness :
    skippedServiceData.methods.length = skippedService.methods.length
    ∧ ∀ md ∈ skippedServiceData.methods, md.skip = true :=
  claim_C8_serviceSkip skippedService skippedServiceData rfl rfl

/-- C10: a method whose decision is skipped (method-level or
service-level skip) is still emitted, but with the internal flag left
false and the status-code and error-message fields left as empty strings:
the skip gate short-circuits internal/status/message resolution. -/
theorem claim_C10_skipGating (srv : ServiceSrc) (sd : ServiceData) (i : Nat)
    (m : MethodSrc) (md : MethodData)
    (hok : processService srv = .ok sd)
    (hm : srv.methods[i]? = some m) (hmd : sd.methods[i]? = some md)
    (hskip : m.skip = true ∨ srv.skip = true) :
    sd.methods.length = srv.methods.length
    ∧ md.skip = true ∧ md.internal = false ∧ md.statusCode = ""
    ∧ md.errMessage = "" := by
  obtain ⟨hsk, hlen, hidx⟩ := processService_ok srv sd hok
  have hpm := hidx i m md hm hmd
  have hs : (m.skip || srv.skip) = true := by
    rcases hskip with h | h <;> simp [h]
  exact ⟨hlen, processMethod_skipped _ _ _ _ _ _ _ hs hpm⟩

/-- Witness for C10 at the concrete skipped method of `mixedService`. -/
theorem claim_C10_skipGating_witness :
    mixedServiceData.methods.length = mixedService.methods.length
    ∧ skippedInternalData.skip = true
    ∧ skippedInternalData.internal = false
    ∧ skippedInternalData.statusCode = ""
    ∧ skippedInternalData.errMessage = "" :=
  claim_C10_skipGating mixedService mixedServiceData 0 skippedMethod
    skippedInternalData rfl rfl rfl (Or.inl rfl)

/-- A leading-segment check survives appending on the right. -/
theorem leadsWith_append (pat x t : List Char)
    (h : leadsWith pat x = true) : leadsWith pat (x ++ t) = true := by
  induction pat generalizing x with
  | nil => simp [leadsWith]
  | cons a as ih =>
    cases x with
    | nil => simp [leadsWith] at h
    | cons b bs =>
      simp only [leadsWith, Bool.and_eq_true] at h ⊢
      exact ⟨h.1, ih bs (by simpa using h.2)⟩

/-- Splitting off a matched leading segment reassembles the list. -/
theorem leadsWith_take_drop (pat s : List Char)
    (h : leadsWith pat s = true) :
    pat ++ List.drop pat.length s = s := by
  induction pat generalizing s with
  | nil => simp
  | cons a as ih =>
    cases s with
    | nil => simp [leadsWith] at h
    | cons b bs =>
      simp only [leadsWith, Bool.and_eq_true, beq_iff_eq] at h
      obtain ⟨rfl, h2⟩ := h
      simpa using ih bs h2

/-- `joinWith` on a cons with a nonempty tail. -/
theorem joinWith_cons (sep x : List Char) (l : List (List Char))
    (hl : l ≠ []) : joinWith sep (x :: l) = x ++ sep ++ joinWith sep l := by
  cases l with
  | nil => exact absurd rfl hl
  | cons q qs => rfl

/-- The head piece of a join is a leading segment of the join. -/
theorem joinWith_head (sep p : List Char) (ps : List (List Char)) :
    ∃ t, joinWith sep (p :: ps) = p ++ t := by
  cases ps with
  | nil => exact ⟨[], by simp [joinWith]⟩
  | cons q qs => exact ⟨sep ++ joinWith sep (q :: qs), by simp [joinWith]⟩

/-- The splitter never produces an empty list of pieces. -/
theorem splitGo_ne_nil (pat : List Char) (fuel : Nat) (s : List Char) :
    splitGo pat fuel s ≠ [] := by
  cases fuel with
  | zero => cases s <;> simp [splitGo]
  | succ n =>
    cases s with
    | nil => simp [splitGo]
    | cons c rest =>
      simp only [splitGo]
      split
      · simp
      · split <;> simp

/-- Replacing is joining the split pieces with the replacement text. -/
theorem replGo_eq_joinWith (pat rep : List Char) (fuel : Nat) (s : List Char) :
    replGo pat rep fuel s = joinWith rep (splitGo pat fuel s) := by
  induction fuel generalizing s with
  | zero => cases s <;> simp [replGo, splitGo, joinWith]
  | succ n ih =>
    cases s with
    | nil => simp [replGo, splitGo, joinWith]
    | cons c rest =>
      simp only [replGo, splitGo]
      split
      · rw [ih, joinWith_cons _ _ _ (splitGo_ne_nil _ _ _)]
        simp
      · rw [ih]
        cases hsp : splitGo pat n rest with
        | nil => exact absurd hsp (splitGo_ne_nil _ _ _)
        | cons p ps =>
          cases ps with
          | nil => simp [joinWith]
          | cons q qs => simp [joinWith]

/-- Joining the split pieces with the pattern itself restores the
input. -/
theorem joinWith_splitGo (pat : List Char) (hp : pat ≠ []) (fuel : Nat)
    (s : List Char) : joinWith pat (splitGo pat fuel s) = s := by
  induction fuel generalizing s with
  | zero => cases s <;> simp [splitGo, joinWith]
  | succ n ih =>
    cases s with
    | nil => simp [splitGo, joinWith]
    | cons c rest =>
      simp only [splitGo]
      split
      · rename_i hlw
        rw [joinWith_cons _ _ _ (splitGo_ne_nil _ _ _)]
        rw [ih]
        have hd : List.drop (pat.length - 1) rest
            = List.drop pat.length (c :: rest) := by
          cases pat with
          | nil => exact absurd rfl hp
          | cons a as => simp
        rw [List.nil_append, hd]
        exact leadsWith_take_drop pat (c :: rest) hlw
      · cases hsp : splitGo pat n rest with
        | nil => exact absurd hsp (splitGo_ne_nil _ _ _)
        | cons p ps =>
          have hjoin : joinWith pat (p :: ps) = rest := by
            rw [← hsp]; exact ih rest
          cases ps with
          | nil =>
            simp only [joinWith] at hjoin ⊢
            rw [hjoin]
          | cons q qs =>
            simp only [joinWith] at hjoin ⊢
            rw [← hjoin]
            simp

/-- An empty piece never contains a nonempty pattern. -/
theorem hasSub_nil_eq_false (pat : List Char) (hp : pat ≠ []) :
    hasSub pat [] = false := by
  cases pat with
  | nil => exact absurd rfl hp
  | cons a as => simp [hasSub, leadsWith]

/-- Replacement is the identity on inputs with no occurrence of the
pattern. -/
theorem hasSub_replGo_id (pat rep : List Char) (fuel : Nat) (s : List Char)
    (h : hasSub pat s = false) : replGo pat rep fuel s = s := by
  induction fuel generalizing s with
  | zero => cases s <;> simp [replGo]
  | succ n ih =>
    cases s with
    | nil => simp [replGo]
    | cons c rest =>
      simp only [hasSub, Bool.or_eq_false_iff] at h
      simp only [replGo]
      rw [if_neg (by rw [h.1]; simp)]
      rw [ih rest h.2]

/-- With enough fuel, every piece produced by the splitter is free of the
pattern. -/
theorem splitGo_sub_free (pat : List Char) (hp : pat ≠ []) (fuel : Nat)
    (s : List Char) (hf : s.length ≤ fuel) :
    ∀ p ∈ splitGo pat fuel s, hasSub pat p = false := by
  induction fuel generalizing s with
  | zero =>
    cases s with
    | nil =>
      intro p hpmem
      simp only [splitGo, List.mem_singleton] at hpmem
      subst hpmem
      exact hasSub_nil_eq_false pat hp
    | cons c rest => simp at hf
  | succ n ih =>
    cases s with
    | nil =>
      intro p hpmem
      simp only [splitGo, List.mem_singleton] at hpmem
      subst hpmem
      exact hasSub_nil_eq_false pat hp
    | cons c rest =>
      simp only [splitGo]
      split
      · rename_i hlw
        intro p hpmem
        rcases List.mem_cons.mp hpmem with rfl | hmem
        · exact hasSub_nil_eq_false pat hp
        · refine ih (List.drop (pat.length - 1) rest) ?_ p hmem
          have h1 : rest.length ≤ n := by simpa using hf
          simp only [List.length_drop]
          omega
      · rename_i hlw
        have hrest : rest.length ≤ n := by simpa using hf
        have hsub := ih rest hrest
        cases hsp : splitGo pat n rest with
        | nil => exact absurd hsp (splitGo_ne_nil _ _ _)
        | cons p ps =>
          rw [hsp] at hsub
          intro x hxmem
          rcases List.mem_cons.mp hxmem with rfl | hmem
          · have hpfree : hasSub pat p = false := hsub p (List.mem_cons_self _ _)
            have hlw2 : leadsWith pat (c :: p) = false := by
              cases hb : leadsWith pat (c :: p) with
              | false => rfl
              | true =>
                exfalso
                have hjoin : joinWith pat (p :: ps) = rest := by
                  rw [← hsp]
                  exact joinWith_splitGo pat hp n rest
                obtain ⟨t, ht⟩ := joinWith_head pat p ps
                rw [ht] at hjoin
                refine hlw ?_
                rw [← hjoin]
                simpa using leadsWith_append pat (c :: p) t hb
            simp [hasSub, hlw2, hpfree]
          · exact hsub x (List.mem_cons_of_mem _ hmem)

/-- Rebuilding a string from its character list is the identity. -/
theorem mk_toList (s : String) : String.mk s.toList = s := by
  cases s
  rfl

/-- `strings.ReplaceAll` is the identity when the pattern does not
occur. -/
theorem replaceAllStr_of_not_sub (s pat rep : String)
    (h : hasSub pat.toList s.toList = false) :
    replaceAllStr s pat rep = s := by
  unfold replaceAllStr listReplaceAll
  rw [hasSub_replGo_id _ _ _ _ h]
  exact mk_toList s

/-- C6: error-message template substitution replaces every literal
occurrence of `%service%` and `%method%`: a template containing neither
placeholder is returned unchanged, and in general the input decomposes
into placeholder-free pieces joined by the placeholder, of which the
substitution output is exactly the same pieces joined by the replacement
text — all N occurrences replaced, for any N including zero. -/
theorem claim_C6_templateSubstitution (msg mn sn : String) :
    (hasSub specifierMethod.toList msg.toList = false →
     hasSub specifierService.toList msg.toList = false →
     applyFormatSpecifiers msg mn sn = msg)
    ∧ (∀ pat r : String, pat = specifierMethod ∨ pat = specifierService →
        listReplaceAll pat.toList r.toList msg.toList
          = joinWith r.toList (listSplitOn pat.toList msg.toList)
        ∧ joinWith pat.toList (listSplitOn pat.toList msg.toList) = msg.toList
        ∧ ∀ p ∈ listSplitOn pat.toList msg.toList,
            hasSub pat.toList p = false) := by
  constructor
  · intro h1 h2
    unfold applyFormatSpecifiers
    rw [replaceAllStr_of_not_sub _ _ _ h1, replaceAllStr_of_not_sub _ _ _ h2]
  · intro pat r hpat
    have hp : pat.toList ≠ [] := by
      rcases hpat with rfl | rfl <;> decide
    simp only [listReplaceAll, listSplitOn]
    exact ⟨replGo_eq_joinWith _ _ _ _, joinWith_splitGo _ hp _ _,
      splitGo_sub_free _ hp _ _ (le_refl _)⟩

/-- Witness for C6: a template without placeholders is unchanged, and a
template containing `%method%` twice splits into three placeholder-free
pieces whose rejoin with the method name carries no occurrence left from
the original two. -/
theorem claim_C6_templateSubstitution_witness :
    applyFormatSpecifiers "Access denied" "GetUser" "Chat" = "Access denied"
    ∧ listReplaceAll specifierMethod.toList "GetUser".toList
        "m: %method%, m: %method%".toList
      = joinWith "GetUser".toList
          (listSplitOn specifierMethod.toList "m: %method%, m: %method%".toList)
    ∧ joinWith specifierMethod.toList
        (listSplitOn specifierMethod.toList "m: %method%, m: %method%".toList)
      = "m: %method%, m: %method%".toList
    ∧ ∀ p ∈ listSplitOn specifierMethod.toList "m: %method%, m: %method%".toList,
        hasSub specifierMethod.toList p = false := by
  have h1 := (claim_C6_templateSubstitution "Access denied" "GetUser" "Chat").1
    (by decide) (by decide)
  have h2 := (claim_C6_templateSubstitution "m: %method%, m: %method%"
    "GetUser" "Chat").2 specifierMethod "GetUser" (Or.inl rfl)
  exact ⟨h1, h2.1, h2.2.1, h2.2.2⟩

end Redact
